import Mathlib

/-!
Verification of the marker/interval logic of the EDF annotation viewer
(`app.py`).  Python strings are embedded as `List Char` (`PyStr`); Python's
built-in operations that the code uses (`str.split`, `str.strip`, `int()`,
f-string decimal formatting, negative-index list access) are translated to
explicit Lean functions below.  Fallible Python code (which raises
`ValueError` / `IndexError`) is embedded with `Option`: `none` is the raised
exception.
-/

namespace App

/-- Python strings, embedded as character lists. -/
abbrev PyStr := List Char

/-- The whitespace characters recognised by Python's `str.split()` /
`str.strip()` (restricted to the ASCII whitespace set). -/
def pyIsSpace (c : Char) : Bool :=
  c = ' ' || c = '\t' || c = '\n' || c = '\r' || c = '\x0b' || c = '\x0c'

/-- The decimal digit character of a value `0..9` (used by Python's decimal
formatting of integers). -/
def digitChar : Nat → Char
  | 0 => '0' | 1 => '1' | 2 => '2' | 3 => '3' | 4 => '4'
  | 5 => '5' | 6 => '6' | 7 => '7' | 8 => '8' | 9 => '9'
  | _ => '*'

/-- Fuel-driven core of decimal rendering of a natural number (most
significant digit first), mirroring `str(n)` in Python for `n ≥ 0`. -/
def natDigitsAux : Nat → Nat → PyStr
  | 0, _ => []
  | fuel + 1, n =>
    if n < 10 then [digitChar n]
    else natDigitsAux fuel (n / 10) ++ [digitChar (n % 10)]

/-- Decimal rendering of a natural number, `str(n)` for `n ≥ 0`. -/
def natDigits (n : Nat) : PyStr := natDigitsAux (n + 1) n

/-- Decimal rendering of an integer, Python's `str(n)`. -/
def pyIntRepr (n : Int) : PyStr :=
  if n < 0 then '-' :: natDigits (-n).toNat else natDigits n.toNat

/-- Python's `f"{n:02}"`: decimal rendering zero-padded to width two.
Only a non-negative single-digit value receives a pad character. -/
def pad2 (n : Int) : PyStr :=
  if 0 ≤ n ∧ n < 10 then '0' :: natDigits n.toNat else pyIntRepr n

/-- Numeric value of a digit character. -/
def digitVal (c : Char) : Nat := c.toNat - 48

/-- Value of a most-significant-first digit string. -/
def digitsToNat (s : PyStr) : Nat := s.foldl (fun acc c => 10 * acc + digitVal c) 0

/-- Python's `int(token)` on a whitespace-free token: an optional single
sign followed by a nonempty run of ASCII digits; anything else raises
`ValueError` (here: `none`). -/
def pyInt (s : PyStr) : Option Int :=
  if s ≠ [] ∧ s.all Char.isDigit then some ((digitsToNat s : Nat) : Int)
  else if s.head? = some '-' ∧ s.tail ≠ [] ∧ s.tail.all Char.isDigit then
    some (-((digitsToNat s.tail : Nat) : Int))
  else if s.head? = some '+' ∧ s.tail ≠ [] ∧ s.tail.all Char.isDigit then
    some ((digitsToNat s.tail : Nat) : Int)
  else none

/-- Python's `str.split(sep)` generalised to a separator predicate: split at
every separator character, keeping empty pieces.  The result is never empty. -/
def splitOnPred (p : Char → Bool) : PyStr → List PyStr
  | [] => [[]]
  | c :: cs =>
    if p c then [] :: splitOnPred p cs
    else
      match splitOnPred p cs with
      | [] => [[c]]
      | t :: ts => (c :: t) :: ts

/-- Python's `str.split()` with no argument: split on whitespace runs and
drop empty pieces. -/
def pySplitWs (l : PyStr) : List PyStr :=
  (splitOnPred pyIsSpace l).filter (fun t => !t.isEmpty)

/-- Python's `str.strip()`: remove leading and trailing whitespace. -/
def pyStrip (l : PyStr) : PyStr :=
  ((l.dropWhile pyIsSpace).reverse.dropWhile pyIsSpace).reverse

/-- The function `time_to_seconds` (app.py:8-11): split on `:` into hours, minutes,
seconds and return `h*3600 + m*60 + s`; a wrong number of pieces or a
non-integer piece raises `ValueError` (`none`). -/
def time_to_seconds (t : PyStr) : Option Int :=
  match splitOnPred (fun c => c = ':') t with
  | [hs, ms, ss] =>
    match pyInt hs, pyInt ms, pyInt ss with
    | some h, some m, some s => some (h * 3600 + m * 60 + s)
    | _, _, _ => none
  | _ => none

/-- The function `seconds_to_time` (app.py:14-19): floor-divide into hours, minutes and
seconds and format each with `f"{.:02}"`, joined by `:`.  Python's `//` and
`%` with a positive divisor are Euclidean `ediv` / `emod`. -/
def seconds_to_time (n : Int) : PyStr :=
  pad2 (n.ediv 3600) ++ ':' :: pad2 ((n.emod 3600).ediv 60) ++ ':' :: pad2 (n.emod 60)

/-- A raw annotation marker `{'time': ..., 'description': ...}`
(app.py:55). -/
structure Marker where
  time : Int
  description : PyStr
deriving DecidableEq

/-- An interval record `{'start': ..., 'end': ..., 'description': ...}`
(app.py:67-71, 128). -/
structure Interval where
  start : Int
  stop : Int
  description : PyStr
deriving DecidableEq

/-- The pairing loop of `load_edf_with_annotations` (app.py:60-71): walk the
marker list two at a time; a pair whose labels share every character but the
last and end in `'1'` / `'2'` respectively yields an interval carrying the
shared base label; any other pair is dropped.  `l[:-1]` is `List.dropLast`,
`l[-1] == c` is `l.getLast? = some c` (the loader never produces an empty
label, so the empty case is unreachable there). -/
def pairIntervals : List Marker → List Interval
  | a :: b :: rest =>
    if a.description.dropLast = b.description.dropLast ∧
        a.description.getLast? = some '1' ∧ b.description.getLast? = some '2' then
      ⟨a.time, b.time, a.description.dropLast⟩ :: pairIntervals rest
    else pairIntervals rest
  | _ => []

/-- One iteration of the annotation-line loop (app.py:47-57): strip the
line, split it on whitespace; unless there are exactly three tokens and the
second passes the time codec, the line is skipped (`none`); otherwise a
marker of the parsed time and the third token is produced. -/
def parseLine (line : PyStr) : Option Marker :=
  match pySplitWs (pyStrip line) with
  | [_, timeTok, desc] =>
    match time_to_seconds timeTok with
    | some t => some ⟨t, desc⟩
    | none => none
  | _ => none

/-- The annotation-reading loop (app.py:45-57): the in-order markers of the
lines that parse, bad lines skipped. -/
def loadMarkers (lines : List PyStr) : List Marker :=
  lines.filterMap parseLine

/-- Reading the annotation text file and pairing (app.py:45-71): Python's
`for line in f` iterates the pieces of the text separated by `'\n'` (the
final empty piece after a trailing newline yields no tokens and is skipped
like any bad line). -/
def loadIntervalsFromText (content : PyStr) : List Interval :=
  pairIntervals (loadMarkers (splitOnPred (fun c => c = '\n') content))

/-- The function `add_markup` (app.py:126-129): append a record built verbatim from the
arguments. -/
def add_markup (start_time stop_time : Int) (label : PyStr)
    (markup_intervals : List Interval) : List Interval :=
  markup_intervals ++ [⟨start_time, stop_time, label⟩]

/-- One display entry
`f"{i + 1}: {seconds_to_time(start)} - {seconds_to_time(end)} ({description})"`
(app.py:74-76, 140-142, 151-153). -/
def intervalChoice (i : Nat) (v : Interval) : PyStr :=
  natDigits (i + 1) ++ ':' :: ' ' :: seconds_to_time v.start
    ++ ' ' :: '-' :: ' ' :: seconds_to_time v.stop
    ++ ' ' :: '(' :: v.description ++ [')']

/-- The display-label comprehension, with `enumerate` unrolled to an explicit
starting index. -/
def choicesFrom (k : Nat) : List Interval → List PyStr
  | [] => []
  | v :: rest => intervalChoice k v :: choicesFrom (k + 1) rest

/-- The comprehension building all display entries from position 0 on. -/
def interval_choices (l : List Interval) : List PyStr := choicesFrom 0 l

/-- The derived index computation (app.py:135, 149), Python
`int(selected_interval.split(":")[0]) - 1`: the
0-based index derived from the selected display entry; `none` when the
leading token is not an integer (`ValueError`). -/
def selectedIndex (selected : PyStr) : Option Int :=
  (pyInt ((splitOnPred (fun c => c = ':') selected).headD [])).map (fun n => n - 1)

/-- Python list indexing `l[i]`, with negative indices counting from the
end; `none` is an `IndexError`. -/
def pyGetIdx (l : List Interval) (i : Int) : Option Interval :=
  if 0 ≤ i then l[i.toNat]?
  else if 0 ≤ (l.length : Int) + i then l[((l.length : Int) + i).toNat]? else none

/-- Overwriting every field of `l[i]` with a fresh record, Python index
semantics; `none` is the `IndexError` raised by the read `all_intervals[index]`. -/
def pySetIdx (l : List Interval) (i : Int) (a : Interval) : Option (List Interval) :=
  if 0 ≤ i then
    if i.toNat < l.length then some (l.set i.toNat a) else none
  else if 0 ≤ (l.length : Int) + i then
    some (l.set ((l.length : Int) + i).toNat a)
  else none

/-- Python's `del l[i]`; `none` is an `IndexError`. -/
def pyDelIdx (l : List Interval) (i : Int) : Option (List Interval) :=
  if 0 ≤ i then
    if i.toNat < l.length then some (l.eraseIdx i.toNat) else none
  else if 0 ≤ (l.length : Int) + i then
    some (l.eraseIdx ((l.length : Int) + i).toNat)
  else none

/-- The function `edit_markup` (app.py:132-143): concatenate the two interval lists,
fetch the record at the derived index and overwrite its three fields, then
recompute the display entries.  `none` is the raised `ValueError` /
`IndexError`. -/
def edit_markup (selected : PyStr) (start_time stop_time : Int) (label : PyStr)
    (existing_intervals markup_intervals : List Interval) :
    Option (List Interval × List PyStr) :=
  let all := existing_intervals ++ markup_intervals
  match selectedIndex selected with
  | none => none
  | some idx =>
    match pySetIdx all idx ⟨start_time, stop_time, label⟩ with
    | none => none
    | some l => some (l, interval_choices l)

/-- The function `delete_markup` (app.py:146-154): concatenate, delete at the derived
index, recompute the display entries. -/
def delete_markup (selected : PyStr)
    (existing_intervals markup_intervals : List Interval) :
    Option (List Interval × List PyStr) :=
  let all := existing_intervals ++ markup_intervals
  match selectedIndex selected with
  | none => none
  | some idx =>
    match pyDelIdx all idx with
    | none => none
    | some l => some (l, interval_choices l)

/-- The txt-writing loop of `save_markup_to_file` (app.py:166-171), with
`enumerate` unrolled to an explicit 1-based index: per interval an open line
`f"{i+1}  {start_time}  {description}1"` and a close line
`f"{i+1}  {end_time}    {description}2"`. -/
def saveLinesFrom (k : Nat) : List Interval → List PyStr
  | [] => []
  | v :: rest =>
    (natDigits k ++ ' ' :: ' ' :: seconds_to_time v.start
        ++ ' ' :: ' ' :: v.description ++ ['1']) ::
    (natDigits k ++ ' ' :: ' ' :: seconds_to_time v.stop
        ++ ' ' :: ' ' :: ' ' :: ' ' :: v.description ++ ['2']) ::
    saveLinesFrom (k + 1) rest

/-- The txt file written by `save_markup_to_file` (app.py:157-171): the two
lines per interval of `existing + markup`, each terminated by `'\n'`. -/
def save_markup_txt (markup_intervals existing_intervals : List Interval) : PyStr :=
  ((saveLinesFrom 1 (existing_intervals ++ markup_intervals)).map
    (fun line => line ++ ['\n'])).flatten

/-- Claim-side view of the pairing walk: the marker pairs at positions
`(0,1), (2,3), ...`. -/
def pairsOf : List Marker → List (Marker × Marker)
  | a :: b :: rest => (a, b) :: pairsOf rest
  | _ => []

/-- Claim-side view of one pairing step: the interval a marker pair yields,
if any. -/
def pairToInterval (ab : Marker × Marker) : Option Interval :=
  if ab.1.description.dropLast = ab.2.description.dropLast ∧
      ab.1.description.getLast? = some '1' ∧ ab.2.description.getLast? = some '2' then
    some ⟨ab.1.time, ab.2.time, ab.1.description.dropLast⟩
  else none

/-- Modelled from the spec's words for claim C6: a token that "is an
integer": an optional single sign followed by a nonempty digit run. -/
def isIntToken (t : PyStr) : Prop :=
  (t ≠ [] ∧ t.all Char.isDigit) ∨
    (∃ rest, (t = '-' :: rest ∨ t = '+' :: rest) ∧ rest ≠ [] ∧ rest.all Char.isDigit)

/-- Claim-side view for C3: the markers the two saved lines of each interval
denote. -/
def markersOf : List Interval → List Marker
  | [] => []
  | v :: rest =>
    ⟨v.start, v.description ++ ['1']⟩ :: ⟨v.stop, v.description ++ ['2']⟩ :: markersOf rest

/-- Joining with `':'`, the left inverse of splitting on `':'`. -/
def joinColon : List PyStr → PyStr
  | [] => []
  | [t] => t
  | t :: ts => t ++ ':' :: joinColon ts

/-! ## Decimal rendering and `int()` parsing -/

theorem natDigitsAux_congr (n : Nat) :
    ∀ f g, n < f → n < g → natDigitsAux f n = natDigitsAux g n := by
  induction n using Nat.strong_induction_on with
  | _ n ih =>
    intro f g hf hg
    cases f with
    | zero => omega
    | succ f =>
      cases g with
      | zero => omega
      | succ g =>
        simp only [natDigitsAux]
        split
        · rfl
        · rw [ih (n / 10) (by omega) f (n / 10 + 1) (by omega) (by omega),
            ih (n / 10) (by omega) g (n / 10 + 1) (by omega) (by omega)]

theorem natDigits_eq (n : Nat) :
    natDigits n = if n < 10 then [digitChar n]
      else natDigits (n / 10) ++ [digitChar (n % 10)] := by
  show natDigitsAux (n + 1) n = _
  simp only [natDigitsAux]
  split
  · rfl
  · rw [natDigitsAux_congr (n / 10) n (n / 10 + 1) (by omega) (by omega)]
    rfl

theorem digitChar_isDigit {d : Nat} (h : d < 10) : (digitChar d).isDigit = true := by
  interval_cases d <;> decide

theorem digitVal_digitChar {d : Nat} (h : d < 10) : digitVal (digitChar d) = d := by
  interval_cases d <;> decide

theorem natDigits_ne_nil (n : Nat) : natDigits n ≠ [] := by
  rw [natDigits_eq]
  split <;> simp

theorem natDigits_all_digit : ∀ n : Nat, ∀ c ∈ natDigits n, c.isDigit = true := by
  intro n
  induction n using Nat.strong_induction_on with
  | _ n ih =>
    intro c hc
    rw [natDigits_eq] at hc
    by_cases h10 : n < 10
    · rw [if_pos h10] at hc
      simp only [List.mem_singleton] at hc
      exact hc ▸ digitChar_isDigit h10
    · rw [if_neg h10] at hc
      rcases List.mem_append.mp hc with h | h
      · exact ih (n / 10) (by omega) c h
      · simp only [List.mem_singleton] at h
        exact h ▸ digitChar_isDigit (by omega)

theorem digitsToNat_append_singleton (s : PyStr) (c : Char) :
    digitsToNat (s ++ [c]) = 10 * digitsToNat s + digitVal c := by
  unfold digitsToNat
  rw [List.foldl_append]
  rfl

theorem digitsToNat_natDigits : ∀ n : Nat, digitsToNat (natDigits n) = n := by
  intro n
  induction n using Nat.strong_induction_on with
  | _ n ih =>
    rw [natDigits_eq]
    by_cases h10 : n < 10
    · rw [if_pos h10]
      show 10 * 0 + digitVal (digitChar n) = n
      rw [digitVal_digitChar h10]
      omega
    · rw [if_neg h10, digitsToNat_append_singleton, ih (n / 10) (by omega),
        digitVal_digitChar (show n % 10 < 10 by omega)]
      omega

theorem digitsToNat_cons_zero (l : PyStr) : digitsToNat ('0' :: l) = digitsToNat l := by
  unfold digitsToNat
  show List.foldl _ (10 * 0 + digitVal '0') l = List.foldl _ 0 l
  congr 1

theorem pyInt_digits {s : PyStr} (h1 : s ≠ []) (h2 : s.all Char.isDigit = true) :
    pyInt s = some ((digitsToNat s : Nat) : Int) := by
  unfold pyInt
  rw [if_pos ⟨h1, h2⟩]

theorem pyInt_natDigits (n : Nat) : pyInt (natDigits n) = some (n : Int) := by
  rw [pyInt_digits (natDigits_ne_nil n)
    (List.all_eq_true.mpr (natDigits_all_digit n)), digitsToNat_natDigits]

theorem pyInt_neg_natDigits (n : Nat) : pyInt ('-' :: natDigits n) = some (-(n : Int)) := by
  unfold pyInt
  rw [if_neg, if_pos]
  · rw [show ('-' :: natDigits n).tail = natDigits n from rfl, digitsToNat_natDigits]
  · refine ⟨rfl, ?_, ?_⟩
    · exact natDigits_ne_nil n
    · exact List.all_eq_true.mpr (natDigits_all_digit n)
  · rintro ⟨-, hall⟩
    rw [List.all_cons, Bool.and_eq_true] at hall
    exact absurd hall.1 (by decide)

theorem pyInt_pad2 (x : Int) : pyInt (pad2 x) = some x := by
  unfold pad2
  by_cases h : 0 ≤ x ∧ x < 10
  · rw [if_pos h]
    have hall : ('0' :: natDigits x.toNat).all Char.isDigit = true := by
      rw [List.all_cons, Bool.and_eq_true]
      exact ⟨by decide, List.all_eq_true.mpr (natDigits_all_digit _)⟩
    rw [pyInt_digits (by simp) hall, digitsToNat_cons_zero, digitsToNat_natDigits,
      Int.toNat_of_nonneg h.1]
  · rw [if_neg h]
    unfold pyIntRepr
    by_cases hneg : x < 0
    · rw [if_pos hneg, pyInt_neg_natDigits, Int.toNat_of_nonneg (by omega)]
      congr 1
      omega
    · rw [if_neg hneg, pyInt_natDigits, Int.toNat_of_nonneg (by omega)]

/-! ## Splitting lemmas -/

theorem splitOnPred_ne_nil (p : Char → Bool) (l : PyStr) : splitOnPred p l ≠ [] := by
  cases l with
  | nil => simp [splitOnPred]
  | cons c cs =>
    simp only [splitOnPred]
    split
    · simp
    · cases h : splitOnPred p cs <;> simp

theorem splitOnPred_sepfree {p : Char → Bool} :
    ∀ {l : PyStr}, (∀ c ∈ l, p c = false) → splitOnPred p l = [l] := by
  intro l
  induction l with
  | nil => intro _; rfl
  | cons c cs ih =>
    intro h
    have hc : p c = false := h c (by simp)
    simp only [splitOnPred, hc, Bool.false_eq_true, if_false]
    rw [ih (fun d hd => h d (by simp [hd]))]

theorem splitOnPred_append {p : Char → Bool} {d : Char} (hd : p d = true) :
    ∀ (a b : PyStr), splitOnPred p (a ++ d :: b) = splitOnPred p a ++ splitOnPred p b := by
  intro a b
  induction a with
  | nil => simp [splitOnPred, hd]
  | cons c a ih =>
    rw [List.cons_append]
    by_cases hc : p c = true
    · rw [show splitOnPred p (c :: (a ++ d :: b)) = [] :: splitOnPred p (a ++ d :: b) by
        simp [splitOnPred, hc]]
      rw [show splitOnPred p (c :: a) = [] :: splitOnPred p a by simp [splitOnPred, hc]]
      rw [ih, List.cons_append]
    · obtain ⟨t, ts, hts⟩ :=
        List.exists_cons_of_ne_nil (splitOnPred_ne_nil p a)
      have hts2 : splitOnPred p (a ++ d :: b) = t :: (ts ++ splitOnPred p b) := by
        rw [ih, hts, List.cons_append]
      rw [show splitOnPred p (c :: (a ++ d :: b)) = (c :: t) :: (ts ++ splitOnPred p b) by
        simp [splitOnPred, hc, hts2]]
      rw [show splitOnPred p (c :: a) = (c :: t) :: ts by simp [splitOnPred, hc, hts]]
      rw [List.cons_append]

theorem joinColon_splitOnPred :
    ∀ l : PyStr, joinColon (splitOnPred (fun c => c = ':') l) = l := by
  intro l
  induction l with
  | nil => rfl
  | cons c cs ih =>
    obtain ⟨t, ts, hts⟩ :=
      List.exists_cons_of_ne_nil (splitOnPred_ne_nil (fun c => c = ':') cs)
    rw [hts] at ih
    by_cases hc : c = ':'
    · subst hc
      rw [show splitOnPred (fun c => c = ':') (':' :: cs)
          = [] :: t :: ts by simp [splitOnPred, hts]]
      show ':' :: joinColon (t :: ts) = _
      rw [ih]
    · rw [show splitOnPred (fun c => c = ':') (c :: cs)
          = (c :: t) :: ts by simp [splitOnPred, hc, hts]]
      cases ts with
      | nil =>
        show c :: t = c :: cs
        rw [show joinColon [t] = t from rfl] at ih
        rw [ih]
      | cons u us =>
        show (c :: t) ++ ':' :: joinColon (u :: us) = c :: cs
        rw [show joinColon (t :: u :: us) = t ++ ':' :: joinColon (u :: us) from rfl] at ih
        rw [List.cons_append, ih]

theorem splitOnPred_tokens_sepfree {p : Char → Bool} :
    ∀ (l : PyStr), ∀ t ∈ splitOnPred p l, ∀ c ∈ t, p c = false := by
  intro l
  induction l with
  | nil =>
    intro t ht c hc
    simp only [splitOnPred, List.mem_singleton] at ht
    subst ht
    simp at hc
  | cons d cs ih =>
    intro t ht c hc
    by_cases hd : p d = true
    · rw [show splitOnPred p (d :: cs) = [] :: splitOnPred p cs by
        simp [splitOnPred, hd]] at ht
      rcases List.mem_cons.mp ht with h | h
      · subst h; simp at hc
      · exact ih t h c hc
    · obtain ⟨u, us, hus⟩ :=
        List.exists_cons_of_ne_nil (splitOnPred_ne_nil p cs)
      rw [show splitOnPred p (d :: cs) = (d :: u) :: us by
        simp [splitOnPred, hd, hus]] at ht
      rcases List.mem_cons.mp ht with h | h
      · subst h
        rcases List.mem_cons.mp hc with h | h
        · subst h; exact Bool.eq_false_iff.mpr hd
        · exact ih u (by rw [hus]; exact List.mem_cons_self u us) c h
      · exact ih t (by rw [hus]; exact List.mem_cons.mpr (Or.inr h)) c hc

/-! ## Whitespace splitting and stripping -/

theorem pySplitWs_append {d : Char} (hd : pyIsSpace d = true) (a b : PyStr) :
    pySplitWs (a ++ d :: b) = pySplitWs a ++ pySplitWs b := by
  unfold pySplitWs
  rw [splitOnPred_append hd, List.filter_append]

theorem pySplitWs_token {t : PyStr} (h : ∀ c ∈ t, pyIsSpace c = false) (hne : t ≠ []) :
    pySplitWs t = [t] := by
  unfold pySplitWs
  rw [splitOnPred_sepfree h]
  simp [hne]

theorem pySplitWs_spaces {l : PyStr} (h : ∀ c ∈ l, pyIsSpace c = true) :
    pySplitWs l = [] := by
  induction l with
  | nil => rfl
  | cons c cs ih =>
    unfold pySplitWs
    rw [show splitOnPred pyIsSpace (c :: cs) = [] :: splitOnPred pyIsSpace cs by
      simp [splitOnPred, h c (by simp)]]
    rw [List.filter_cons]
    simp only [List.isEmpty_nil, Bool.not_true, Bool.false_eq_true, if_false]
    exact ih (fun d hd => h d (by simp [hd]))

theorem pySplitWs_spaces_append {a : PyStr} (h : ∀ c ∈ a, pyIsSpace c = true) (b : PyStr) :
    pySplitWs (a ++ b) = pySplitWs b := by
  induction a with
  | nil => rfl
  | cons c a ih =>
    rw [List.cons_append]
    unfold pySplitWs
    rw [show splitOnPred pyIsSpace (c :: (a ++ b)) = [] :: splitOnPred pyIsSpace (a ++ b) by
      simp [splitOnPred, h c (by simp)]]
    rw [List.filter_cons]
    simp only [List.isEmpty_nil, Bool.not_true, Bool.false_eq_true, if_false]
    exact ih (fun d hd => h d (by simp [hd]))

theorem pySplitWs_append_spaces {b : PyStr} (h : ∀ c ∈ b, pyIsSpace c = true) (a : PyStr) :
    pySplitWs (a ++ b) = pySplitWs a := by
  cases b with
  | nil => rw [List.append_nil]
  | cons s b =>
    rw [pySplitWs_append (h s (by simp)) a b,
      pySplitWs_spaces (l := b) (fun d hd => h d (by simp [hd])), List.append_nil]

theorem pySplitWs_pyStrip (l : PyStr) : pySplitWs (pyStrip l) = pySplitWs l := by
  have step1 : pySplitWs l = pySplitWs (l.dropWhile pyIsSpace) := by
    conv_lhs => rw [← List.takeWhile_append_dropWhile (p := pyIsSpace) (l := l)]
    exact pySplitWs_spaces_append (fun c hc => List.mem_takeWhile_imp hc) _
  set l₁ := l.dropWhile pyIsSpace with hl₁
  have decomp : l₁ = (l₁.reverse.dropWhile pyIsSpace).reverse
      ++ (l₁.reverse.takeWhile pyIsSpace).reverse := by
    conv_lhs => rw [← List.reverse_reverse l₁,
      ← List.takeWhile_append_dropWhile (p := pyIsSpace) (l := l₁.reverse)]
    rw [List.reverse_append]
  have step2 : pySplitWs l₁ = pySplitWs (l₁.reverse.dropWhile pyIsSpace).reverse := by
    conv_lhs => rw [decomp]
    exact pySplitWs_append_spaces
      (fun c hc => List.mem_takeWhile_imp (List.mem_reverse.mp hc)) _
  rw [step1, step2]
  rfl

/-! ## The time codec -/

theorem pad2_chars (x : Int) : ∀ c ∈ pad2 x, c.isDigit = true ∨ c = '-' := by
  unfold pad2 pyIntRepr
  intro c hc
  split at hc
  · rcases List.mem_cons.mp hc with h | h
    · exact Or.inl (by rw [h]; decide)
    · exact Or.inl (natDigits_all_digit _ c h)
  · split at hc
    · rcases List.mem_cons.mp hc with h | h
      · exact Or.inr h
      · exact Or.inl (natDigits_all_digit _ c h)
    · exact Or.inl (natDigits_all_digit _ c hc)

theorem pad2_colonfree (x : Int) : ∀ c ∈ pad2 x, decide (c = ':') = false := by
  intro c hc
  rw [decide_eq_false_iff_not]
  intro heq
  subst heq
  rcases pad2_chars x ':' hc with h | h
  · exact absurd h (by decide)
  · exact absurd h (by decide)

theorem splitOnPred_seconds_to_time (n : Int) :
    splitOnPred (fun c => c = ':') (seconds_to_time n)
      = [pad2 (n.ediv 3600), pad2 ((n.emod 3600).ediv 60), pad2 (n.emod 60)] := by
  unfold seconds_to_time
  rw [List.append_assoc, List.cons_append]
  rw [splitOnPred_append (d := ':') (by decide) (pad2 (n.ediv 3600)),
    splitOnPred_append (d := ':') (by decide) (pad2 ((n.emod 3600).ediv 60)),
    splitOnPred_sepfree (pad2_colonfree (n.ediv 3600)),
    splitOnPred_sepfree (pad2_colonfree ((n.emod 3600).ediv 60)),
    splitOnPred_sepfree (pad2_colonfree (n.emod 60))]
  rfl

theorem time_to_seconds_seconds_to_time (n : Int) :
    time_to_seconds (seconds_to_time n) = some n := by
  unfold time_to_seconds
  rw [splitOnPred_seconds_to_time]
  show (match pyInt (pad2 (n.ediv 3600)), pyInt (pad2 ((n.emod 3600).ediv 60)),
      pyInt (pad2 (n.emod 60)) with
    | some h, some m, some s => some (h * 3600 + m * 60 + s)
    | _, _, _ => none) = some n
  rw [pyInt_pad2, pyInt_pad2, pyInt_pad2]
  show some (n.ediv 3600 * 3600 + (n.emod 3600).ediv 60 * 60 + n.emod 60) = some n
  congr 1
  have h1 : 3600 * (n.ediv 3600) + n.emod 3600 = n := Int.ediv_add_emod n 3600
  have h2 : 60 * ((n.emod 3600).ediv 60) + (n.emod 3600).emod 60 = n.emod 3600 :=
    Int.ediv_add_emod _ 60
  have h3 : (n.emod 3600).emod 60 = n.emod 60 := Int.emod_emod_of_dvd n (by norm_num)
  omega

/-! ## Pairing -/

theorem pairIntervals_eq_filterMap :
    ∀ ms : List Marker, pairIntervals ms = (pairsOf ms).filterMap pairToInterval
  | [] => rfl
  | [_] => rfl
  | a :: b :: rest => by
    show pairIntervals (a :: b :: rest)
      = List.filterMap pairToInterval ((a, b) :: pairsOf rest)
    rw [List.filterMap_cons]
    by_cases h : a.description.dropLast = b.description.dropLast ∧
        a.description.getLast? = some '1' ∧ b.description.getLast? = some '2'
    · rw [show pairIntervals (a :: b :: rest)
          = ⟨a.time, b.time, a.description.dropLast⟩ :: pairIntervals rest by
        simp [pairIntervals, h]]
      rw [show pairToInterval (a, b)
          = some ⟨a.time, b.time, a.description.dropLast⟩ by
        simp [pairToInterval, h]]
      rw [pairIntervals_eq_filterMap rest]
    · rw [show pairIntervals (a :: b :: rest) = pairIntervals rest by
        simp [pairIntervals, h]]
      rw [show pairToInterval (a, b) = none by simp [pairToInterval, h]]
      rw [pairIntervals_eq_filterMap rest]

theorem pairsOf_getElem :
    ∀ (ms : List Marker) (i : Nat),
      (pairsOf ms)[i]? = (ms[2 * i]?).bind (fun a => (ms[2 * i + 1]?).map (fun b => (a, b)))
  | [], i => by simp [pairsOf]
  | [a], i => by
    cases i with
    | zero => simp [pairsOf]
    | succ j =>
      rw [show 2 * (j + 1) = (2 * j + 1) + 1 by ring]
      simp [pairsOf]
  | a :: b :: rest, i => by
    cases i with
    | zero => simp [pairsOf]
    | succ j =>
      rw [show 2 * (j + 1) = (2 * j + 1) + 1 by ring,
        show (2 * j + 1) + 1 + 1 = (2 * j + 1 + 1) + 1 by ring]
      rw [List.getElem?_cons_succ, List.getElem?_cons_succ,
        List.getElem?_cons_succ, List.getElem?_cons_succ]
      rw [show pairsOf (a :: b :: rest) = (a, b) :: pairsOf rest from rfl,
        List.getElem?_cons_succ]
      exact pairsOf_getElem rest j

/-- C1: the loader pairs markers two at a time at even positions: the pairs
walked are exactly `(ms[2i], ms[2i+1])`, a pair yields an interval
`{start, end, base label}` exactly when the labels agree on all but the last
character and end in `'1'` / `'2'` respectively (the content of
`pairToInterval`), and the two concrete marker lists behave as claimed. -/
theorem c1_pairing_even_positions :
    (∀ ms : List Marker, pairIntervals ms = (pairsOf ms).filterMap pairToInterval)
    ∧ (∀ (ms : List Marker) (i : Nat),
        (pairsOf ms)[i]? = (ms[2 * i]?).bind (fun a => (ms[2 * i + 1]?).map (fun b => (a, b))))
    ∧ (∀ a b : Marker, pairToInterval (a, b)
        = if a.description.dropLast = b.description.dropLast ∧
            a.description.getLast? = some '1' ∧ b.description.getLast? = some '2'
          then some ⟨a.time, b.time, a.description.dropLast⟩ else none)
    ∧ pairIntervals [⟨5, "swd1".toList⟩, ⟨9, "swd2".toList⟩] = [⟨5, 9, "swd".toList⟩]
    ∧ pairIntervals [⟨5, "swd1".toList⟩, ⟨9, "ds2".toList⟩] = [] :=
  ⟨pairIntervals_eq_filterMap, pairsOf_getElem, fun _ _ => rfl, by decide, by decide⟩

/-- C2: for every non-negative integer number of seconds, rendering with
`seconds_to_time` and parsing back with `time_to_seconds` returns the same
value. -/
theorem c2_time_roundtrip (s : Nat) :
    time_to_seconds (seconds_to_time (s : Int)) = some (s : Int) :=
  time_to_seconds_seconds_to_time (s : Int)

/-- C10: a trailing unpaired marker of an odd-length list is silently
ignored: the pairing result is that of the list with its last marker
removed. -/
theorem c10_odd_trailing_marker_ignored :
    ∀ ms : List Marker, ms.length % 2 = 1 → pairIntervals ms = pairIntervals ms.dropLast
  | [], h => by simp at h
  | [a], _ => by simp [pairIntervals]
  | a :: b :: rest, h => by
    have hr : rest.length % 2 = 1 := by
      simp only [List.length_cons] at h
      omega
    have hrest : rest ≠ [] := by
      intro he
      rw [he] at hr
      simp at hr
    obtain ⟨u, us, rfl⟩ := List.exists_cons_of_ne_nil hrest
    rw [show (a :: b :: u :: us).dropLast = a :: b :: (u :: us).dropLast by simp]
    show pairIntervals (a :: b :: u :: us) = pairIntervals (a :: b :: (u :: us).dropLast)
    unfold pairIntervals
    rw [c10_odd_trailing_marker_ignored (u :: us) hr]

/-- Witness for C10 at the concrete one-marker list. -/
theorem c10_odd_trailing_marker_ignored_witness :
    pairIntervals [⟨5, "swd1".toList⟩] = pairIntervals ([⟨5, "swd1".toList⟩] : List Marker).dropLast :=
  c10_odd_trailing_marker_ignored [⟨5, "swd1".toList⟩] (by decide)

/-! ## The `start ≤ end` invariant (C4) -/

/-- C4 counterexample: a marker pair whose close time precedes its open time
is paired verbatim, and `add_markup` likewise appends whatever it is given,
so both produce an interval with `start > end`. -/
theorem c4_start_le_stop_counterexample :
    ¬ (∀ iv ∈ pairIntervals [⟨9, "swd1".toList⟩, ⟨5, "swd2".toList⟩], iv.start ≤ iv.stop)
    ∧ ¬ (∀ iv ∈ add_markup 9 5 ("swd".toList) [], iv.start ≤ iv.stop) := by
  constructor
  · intro h
    exact absurd (h ⟨9, 5, "swd".toList⟩ (by decide)) (by decide)
  · intro h
    exact absurd (h ⟨9, 5, "swd".toList⟩ (by decide)) (by decide)

theorem pairIntervals_start_le_stop :
    ∀ ms : List Marker, List.Chain' (fun a b => a.time ≤ b.time) ms →
      ∀ iv ∈ pairIntervals ms, iv.start ≤ iv.stop
  | [], _, iv, hiv => by simp [pairIntervals] at hiv
  | [_], _, iv, hiv => by simp [pairIntervals] at hiv
  | a :: b :: rest, hchain, iv, hiv => by
    have hab : a.time ≤ b.time := (List.chain'_cons.mp hchain).1
    have hrest : List.Chain' (fun a b : Marker => a.time ≤ b.time) rest :=
      List.Chain'.tail (List.chain'_cons.mp hchain).2
    unfold pairIntervals at hiv
    split at hiv
    · rcases List.mem_cons.mp hiv with h | h
      · rw [h]
        exact hab
      · exact pairIntervals_start_le_stop rest hrest iv h
    · exact pairIntervals_start_le_stop rest hrest iv hiv

/-- C4 amended: an interval emitted by the pairing walk satisfies
`start ≤ end` provided the marker times are in nondecreasing order, and an
interval appended by `add_markup` satisfies it provided the given
`start_time ≤ end_time` (neither function checks either condition itself). -/
theorem c4_start_le_stop_amended :
    (∀ ms : List Marker, List.Chain' (fun a b => a.time ≤ b.time) ms →
      ∀ iv ∈ pairIntervals ms, iv.start ≤ iv.stop)
    ∧ (∀ (s e : Int) (lbl : PyStr) (mk : List Interval), s ≤ e →
        (∀ iv ∈ mk, iv.start ≤ iv.stop) →
        ∀ iv ∈ add_markup s e lbl mk, iv.start ≤ iv.stop) := by
  refine ⟨pairIntervals_start_le_stop, ?_⟩
  intro s e lbl mk hse hmk iv hiv
  rcases List.mem_append.mp hiv with h | h
  · exact hmk iv h
  · rw [List.mem_singleton.mp h]
    exact hse

/-- Witness for the amended C4 at concrete inputs. -/
theorem c4_start_le_stop_amended_witness :
    (⟨5, 9, "swd".toList⟩ : Interval).start ≤ (⟨5, 9, "swd".toList⟩ : Interval).stop
    ∧ (⟨3, 7, "is".toList⟩ : Interval).start ≤ (⟨3, 7, "is".toList⟩ : Interval).stop :=
  ⟨c4_start_le_stop_amended.1 [⟨5, "swd1".toList⟩, ⟨9, "swd2".toList⟩]
      (by rw [List.chain'_pair]; decide) ⟨5, 9, "swd".toList⟩ (by decide),
    c4_start_le_stop_amended.2 3 7 ("is".toList) [] (by decide) (by decide)
      ⟨3, 7, "is".toList⟩ (by decide)⟩

/-! ## The line-skipping policy (C5) -/

/-- C5: a line is skipped exactly when it does not split into three tokens
or its time token fails the codec; a skipped line leaves the loaded marker
list exactly that of the remaining lines, and a good line contributes its
marker in order. -/
theorem c5_bad_lines_skipped :
    (∀ l : PyStr, parseLine l = none ↔
      ((pySplitWs (pyStrip l)).length ≠ 3 ∨
        ∃ a t d, pySplitWs (pyStrip l) = [a, t, d] ∧ time_to_seconds t = none))
    ∧ (∀ (l : PyStr) (pre post : List PyStr), parseLine l = none →
        loadMarkers (pre ++ l :: post) = loadMarkers (pre ++ post))
    ∧ (∀ (l : PyStr) (pre post : List PyStr) (m : Marker), parseLine l = some m →
        loadMarkers (pre ++ l :: post) = loadMarkers pre ++ m :: loadMarkers post) := by
  refine ⟨?_, ?_, ?_⟩
  · intro l
    rcases hP : pySplitWs (pyStrip l) with _ | ⟨a, _ | ⟨b, _ | ⟨c, _ | ⟨d, rest⟩⟩⟩⟩
    · simp [parseLine, hP]
    · simp [parseLine, hP]
    · simp [parseLine, hP]
    · cases hT : time_to_seconds b with
      | none =>
        simp [parseLine, hP, hT]
        exact ⟨a, b, ⟨rfl, rfl⟩, hT⟩
      | some v =>
        simp only [parseLine, hP, hT]
        constructor
        · intro h
          exact absurd h (by simp)
        · rintro (h | ⟨a', t', d', heq, ht'⟩)
          · simp at h
          · obtain ⟨rfl, rfl, rfl⟩ : a = a' ∧ b = t' ∧ c = d' := by
              simpa using heq
            rw [hT] at ht'
            exact absurd ht' (by simp)
    · simp [parseLine, hP]
  · intro l pre post h
    simp [loadMarkers, List.filterMap_append, List.filterMap_cons, h]
  · intro l pre post m h
    simp [loadMarkers, List.filterMap_append, List.filterMap_cons, h]

/-- Witness for C5: a malformed line between two good lines is dropped and
the good lines still load, in order. -/
theorem c5_bad_lines_skipped_witness :
    loadMarkers (["1 00:00:05 swd1".toList] ++ "garbage line with many tokens".toList
        :: ["1 00:00:09 swd2".toList])
      = loadMarkers (["1 00:00:05 swd1".toList] ++ ["1 00:00:09 swd2".toList]) :=
  c5_bad_lines_skipped.2.1 ("garbage line with many tokens".toList)
    ["1 00:00:05 swd1".toList] ["1 00:00:09 swd2".toList] (by decide)

/-! ## Characterisation of the time codec (C6) -/

theorem isDigit_ne_colon {c : Char} (h : c.isDigit = true) : decide (c = ':') = false := by
  rw [decide_eq_false_iff_not]
  intro he
  subst he
  exact absurd h (by decide)

theorem pyInt_isSome_iff (t : PyStr) : (pyInt t).isSome = true ↔ isIntToken t := by
  unfold pyInt
  by_cases h1 : t ≠ [] ∧ t.all Char.isDigit = true
  · rw [if_pos h1]
    simp only [Option.isSome_some, true_iff]
    exact Or.inl h1
  · rw [if_neg h1]
    by_cases h2 : t.head? = some '-' ∧ t.tail ≠ [] ∧ t.tail.all Char.isDigit = true
    · rw [if_pos h2]
      simp only [Option.isSome_some, true_iff]
      refine Or.inr ⟨t.tail, Or.inl ?_, h2.2.1, h2.2.2⟩
      cases t with
      | nil => exact absurd h2.1 (by simp)
      | cons c cs =>
        have : c = '-' := by simpa using h2.1
        rw [this]
        rfl
    · rw [if_neg h2]
      by_cases h3 : t.head? = some '+' ∧ t.tail ≠ [] ∧ t.tail.all Char.isDigit = true
      · rw [if_pos h3]
        simp only [Option.isSome_some, true_iff]
        refine Or.inr ⟨t.tail, Or.inr ?_, h3.2.1, h3.2.2⟩
        cases t with
        | nil => exact absurd h3.1 (by simp)
        | cons c cs =>
          have : c = '+' := by simpa using h3.1
          rw [this]
          rfl
      · rw [if_neg h3]
        simp only [Option.isSome_none, Bool.false_eq_true, false_iff]
        intro hI
        rcases hI with h | ⟨rest, hsign, hne, hall⟩
        · exact h1 h
        · rcases hsign with rfl | rfl
          · exact h2 ⟨rfl, hne, hall⟩
          · exact h3 ⟨rfl, hne, hall⟩

theorem isIntToken_colonfree {t : PyStr} (h : isIntToken t) :
    ∀ c ∈ t, decide (c = ':') = false := by
  intro c hc
  rcases h with ⟨-, hall⟩ | ⟨rest, hsign, -, hall⟩
  · exact isDigit_ne_colon (List.all_eq_true.mp hall c hc)
  · rcases hsign with rfl | rfl
    · rcases List.mem_cons.mp hc with rfl | hc
      · decide
      · exact isDigit_ne_colon (List.all_eq_true.mp hall c hc)
    · rcases List.mem_cons.mp hc with rfl | hc
      · decide
      · exact isDigit_ne_colon (List.all_eq_true.mp hall c hc)

theorem splitOnPred_three_tokens {a b c : PyStr}
    (ha : isIntToken a) (hb : isIntToken b) (hc : isIntToken c) :
    splitOnPred (fun x => x = ':') (a ++ ':' :: (b ++ ':' :: c)) = [a, b, c] := by
  rw [splitOnPred_append (d := ':') (by decide) a,
    splitOnPred_append (d := ':') (by decide) b,
    splitOnPred_sepfree (isIntToken_colonfree ha),
    splitOnPred_sepfree (isIntToken_colonfree hb),
    splitOnPred_sepfree (isIntToken_colonfree hc)]
  rfl

/-- C6: `time_to_seconds` succeeds exactly on strings made of three
colon-separated integer tokens, and on those it returns
`h*3600 + m*60 + s` for the three parsed values; every other string fails
(`none`, the raised `ValueError`). -/
theorem c6_time_to_seconds_charact (t : PyStr) :
    ((time_to_seconds t).isSome = true ↔
      ∃ a b c : PyStr, t = a ++ ':' :: (b ++ ':' :: c)
        ∧ isIntToken a ∧ isIntToken b ∧ isIntToken c)
    ∧ (∀ (a b c : PyStr) (h m s : Int), t = a ++ ':' :: (b ++ ':' :: c) →
        pyInt a = some h → pyInt b = some m → pyInt c = some s →
        time_to_seconds t = some (h * 3600 + m * 60 + s)) := by
  constructor
  · constructor
    · intro hs
      unfold time_to_seconds at hs
      rcases hsp : splitOnPred (fun x => x = ':') t
        with _ | ⟨a, _ | ⟨b, _ | ⟨c, _ | ⟨d, rest⟩⟩⟩⟩ <;> rw [hsp] at hs
      · simp at hs
      · simp at hs
      · simp at hs
      · have hT : t = a ++ ':' :: (b ++ ':' :: c) := by
          have hj := joinColon_splitOnPred t
          rw [hsp] at hj
          rw [← hj]
          rfl
        have hs' : (match pyInt a, pyInt b, pyInt c with
          | some h, some m, some s => some (h * 3600 + m * 60 + s)
          | _, _, _ => none).isSome = true := hs
        cases hA : pyInt a with
        | none => rw [hA] at hs'; simp at hs'
        | some va =>
          cases hB : pyInt b with
          | none => rw [hA, hB] at hs'; simp at hs'
          | some vb =>
            cases hC : pyInt c with
            | none => rw [hA, hB, hC] at hs'; simp at hs'
            | some vc =>
              exact ⟨a, b, c, hT,
                (pyInt_isSome_iff a).mp (by rw [hA]; rfl),
                (pyInt_isSome_iff b).mp (by rw [hB]; rfl),
                (pyInt_isSome_iff c).mp (by rw [hC]; rfl)⟩
      · simp at hs
    · rintro ⟨a, b, c, rfl, ha, hb, hc⟩
      unfold time_to_seconds
      rw [splitOnPred_three_tokens ha hb hc]
      obtain ⟨va, hva⟩ := Option.isSome_iff_exists.mp ((pyInt_isSome_iff a).mpr ha)
      obtain ⟨vb, hvb⟩ := Option.isSome_iff_exists.mp ((pyInt_isSome_iff b).mpr hb)
      obtain ⟨vc, hvc⟩ := Option.isSome_iff_exists.mp ((pyInt_isSome_iff c).mpr hc)
      show (match pyInt a, pyInt b, pyInt c with
        | some h, some m, some s => some (h * 3600 + m * 60 + s)
        | _, _, _ => none).isSome = true
      rw [hva, hvb, hvc]
      rfl
  · rintro a b c h m s rfl hpa hpb hpc
    have ha := (pyInt_isSome_iff a).mp (by rw [hpa]; rfl)
    have hb := (pyInt_isSome_iff b).mp (by rw [hpb]; rfl)
    have hc := (pyInt_isSome_iff c).mp (by rw [hpc]; rfl)
    unfold time_to_seconds
    rw [splitOnPred_three_tokens ha hb hc]
    show (match pyInt a, pyInt b, pyInt c with
      | some h, some m, some s => some (h * 3600 + m * 60 + s)
      | _, _, _ => none) = some (h * 3600 + m * 60 + s)
    rw [hpa, hpb, hpc]

/-- Witness for C6: `"1:2:3"` parses to `1*3600 + 2*60 + 3`. -/
theorem c6_time_to_seconds_charact_witness :
    time_to_seconds ("1:2:3".toList) = some (1 * 3600 + 2 * 60 + 3) :=
  (c6_time_to_seconds_charact ("1:2:3".toList)).2
    ("1".toList) ("2".toList) ("3".toList) 1 2 3 (by decide) (by decide) (by decide) (by decide)

/-! ## Editing and deleting intervals (C7, C8, C9) -/

theorem choicesFrom_length : ∀ (k : Nat) (l : List Interval),
    (choicesFrom k l).length = l.length
  | _, [] => rfl
  | k, _ :: rest => by
    simp only [choicesFrom, List.length_cons]
    rw [choicesFrom_length (k + 1) rest]

theorem choicesFrom_getElem : ∀ (k : Nat) (l : List Interval) (i : Nat),
    (choicesFrom k l)[i]? = (l[i]?).map (intervalChoice (k + i))
  | _, [], i => by simp [choicesFrom]
  | k, v :: rest, 0 => by simp [choicesFrom]
  | k, v :: rest, i + 1 => by
    rw [show choicesFrom k (v :: rest) = intervalChoice k v :: choicesFrom (k + 1) rest
      from rfl]
    rw [List.getElem?_cons_succ, List.getElem?_cons_succ]
    rw [choicesFrom_getElem (k + 1) rest i, show k + 1 + i = k + (i + 1) by omega]

theorem interval_choices_length (l : List Interval) :
    (interval_choices l).length = l.length :=
  choicesFrom_length 0 l

theorem interval_choices_getElem (l : List Interval) (i : Nat) :
    (interval_choices l)[i]? = (l[i]?).map (intervalChoice i) := by
  rw [show interval_choices l = choicesFrom 0 l from rfl, choicesFrom_getElem,
    Nat.zero_add]

theorem pySetIdx_valid {l : List Interval} {p : Nat} (hp1 : 1 ≤ p) (hp2 : p ≤ l.length)
    (a : Interval) : pySetIdx l ((p : Int) - 1) a = some (l.set (p - 1) a) := by
  unfold pySetIdx
  rw [if_pos (by omega), show ((p : Int) - 1).toNat = p - 1 by omega, if_pos (by omega)]

theorem pyDelIdx_valid {l : List Interval} {p : Nat} (hp1 : 1 ≤ p) (hp2 : p ≤ l.length) :
    pyDelIdx l ((p : Int) - 1) = some (l.eraseIdx (p - 1)) := by
  unfold pyDelIdx
  rw [if_pos (by omega), show ((p : Int) - 1).toNat = p - 1 by omega, if_pos (by omega)]

theorem pySetIdx_out {l : List Interval} {idx : Int} (a : Interval)
    (hout : (l.length : Int) ≤ idx ∨ idx < -(l.length : Int)) :
    pySetIdx l idx a = none := by
  unfold pySetIdx
  rcases hout with h | h
  · rw [if_pos (by omega), if_neg (by omega)]
  · rw [if_neg (by omega), if_neg (by omega)]

theorem pyDelIdx_out {l : List Interval} {idx : Int}
    (hout : (l.length : Int) ≤ idx ∨ idx < -(l.length : Int)) :
    pyDelIdx l idx = none := by
  unfold pyDelIdx
  rcases hout with h | h
  · rw [if_pos (by omega), if_neg (by omega)]
  · rw [if_neg (by omega), if_neg (by omega)]

/-- C7: deleting at a valid 1-based display position `p` removes the
interval at flat index `p-1` of the concatenated list; the re-derived
display list is one entry shorter, and its entries are renumbered from the
new positions (entry `i` displays position `i+1`). -/
theorem c7_delete_markup (selected : PyStr) (ex mk : List Interval) (p : Nat)
    (hp1 : 1 ≤ p) (hp2 : p ≤ (ex ++ mk).length)
    (hsel : selectedIndex selected = some ((p : Int) - 1)) :
    delete_markup selected ex mk
      = some ((ex ++ mk).eraseIdx (p - 1), interval_choices ((ex ++ mk).eraseIdx (p - 1)))
    ∧ (interval_choices ((ex ++ mk).eraseIdx (p - 1))).length = (ex ++ mk).length - 1
    ∧ ∀ i : Nat, (interval_choices ((ex ++ mk).eraseIdx (p - 1)))[i]?
        = (((ex ++ mk).eraseIdx (p - 1))[i]?).map (intervalChoice i) := by
  refine ⟨?_, ?_, ?_⟩
  · simp [delete_markup, hsel, pyDelIdx_valid hp1 hp2]
  · rw [interval_choices_length, List.length_eraseIdx, if_pos (by omega)]
  · intro i
    exact interval_choices_getElem _ i

/-- Witness for C7 at a concrete two-interval list. -/
theorem c7_delete_markup_witness :
    delete_markup ("1: x".toList) [⟨5, 9, "swd".toList⟩] [⟨70, 80, "is".toList⟩]
      = some (([⟨5, 9, "swd".toList⟩, ⟨70, 80, "is".toList⟩] : List Interval).eraseIdx 0,
          interval_choices (([⟨5, 9, "swd".toList⟩, ⟨70, 80, "is".toList⟩] : List Interval).eraseIdx 0)) :=
  (c7_delete_markup ("1: x".toList) [⟨5, 9, "swd".toList⟩] [⟨70, 80, "is".toList⟩] 1
    (by decide) (by decide) (by decide)).1

/-- C8: a selected entry whose derived index is outside the valid index
range of the concatenated list (at or beyond its length, or below minus its
length) makes both `edit_markup` and `delete_markup` fail with the
`IndexError` (`none`), returning no modified list. -/
theorem c8_out_of_range_fails (selected : PyStr) (s e : Int) (lbl : PyStr)
    (ex mk : List Interval) (idx : Int)
    (hsel : selectedIndex selected = some idx)
    (hout : ((ex ++ mk).length : Int) ≤ idx ∨ idx < -((ex ++ mk).length : Int)) :
    edit_markup selected s e lbl ex mk = none ∧ delete_markup selected ex mk = none := by
  constructor
  · simp [edit_markup, hsel, pySetIdx_out _ hout]
  · simp [delete_markup, hsel, pyDelIdx_out hout]

/-- Witness for C8: position 5 on a one-interval list fails both actions. -/
theorem c8_out_of_range_fails_witness :
    edit_markup ("5: x".toList) 1 2 ("ds".toList) [⟨5, 9, "swd".toList⟩] [] = none
    ∧ delete_markup ("5: x".toList) [⟨5, 9, "swd".toList⟩] [] = none :=
  c8_out_of_range_fails ("5: x".toList) 1 2 ("ds".toList) [⟨5, 9, "swd".toList⟩] [] 4
    (by decide) (by decide)

/-- C9: editing at a valid 1-based display position `p` returns a list of
the same length whose entry at flat index `p-1` carries exactly the new
start, end and description, with every other entry unchanged. -/
theorem c9_edit_markup_frame (selected : PyStr) (s e : Int) (lbl : PyStr)
    (ex mk : List Interval) (p : Nat)
    (hp1 : 1 ≤ p) (hp2 : p ≤ (ex ++ mk).length)
    (hsel : selectedIndex selected = some ((p : Int) - 1)) :
    edit_markup selected s e lbl ex mk
      = some ((ex ++ mk).set (p - 1) ⟨s, e, lbl⟩,
          interval_choices ((ex ++ mk).set (p - 1) ⟨s, e, lbl⟩))
    ∧ ((ex ++ mk).set (p - 1) ⟨s, e, lbl⟩).length = (ex ++ mk).length
    ∧ ((ex ++ mk).set (p - 1) ⟨s, e, lbl⟩)[p - 1]? = some ⟨s, e, lbl⟩
    ∧ ∀ j : Nat, j ≠ p - 1 → ((ex ++ mk).set (p - 1) ⟨s, e, lbl⟩)[j]? = (ex ++ mk)[j]? := by
  refine ⟨?_, ?_, ?_, ?_⟩
  · simp [edit_markup, hsel, pySetIdx_valid hp1 hp2]
  · exact List.length_set (ex ++ mk) (p - 1) ⟨s, e, lbl⟩
  · exact List.getElem?_set_self (by omega)
  · intro j hj
    exact List.getElem?_set_ne (fun h => hj h.symm)

/-- Witness for C9 at a concrete two-interval list and position 2. -/
theorem c9_edit_markup_frame_witness :
    edit_markup ("2: x".toList) 1 2 ("ds".toList) [⟨5, 9, "swd".toList⟩]
        [⟨70, 80, "is".toList⟩]
      = some ((([⟨5, 9, "swd".toList⟩, ⟨70, 80, "is".toList⟩] : List Interval).set 1 ⟨1, 2, "ds".toList⟩),
          interval_choices (([⟨5, 9, "swd".toList⟩, ⟨70, 80, "is".toList⟩] : List Interval).set 1 ⟨1, 2, "ds".toList⟩)) :=
  (c9_edit_markup_frame ("2: x".toList) 1 2 ("ds".toList) [⟨5, 9, "swd".toList⟩]
    [⟨70, 80, "is".toList⟩] 2 (by decide) (by decide) (by decide)).1

/-! ## The save / load round trip (C3) -/

theorem isDigit_not_space {c : Char} (h : c.isDigit = true) : pyIsSpace c = false := by
  cases hc : pyIsSpace c with
  | false => rfl
  | true =>
    simp only [pyIsSpace, Bool.or_eq_true, decide_eq_true_eq] at hc
    rcases hc with ((((rfl | rfl) | rfl) | rfl) | rfl) | rfl <;> exact absurd h (by decide)

theorem not_space_ne_nl {c : Char} (h : pyIsSpace c = false) : decide (c = '\n') = false := by
  rw [decide_eq_false_iff_not]
  intro he
  subst he
  exact absurd h (by decide)

theorem timeChar_not_space {c : Char} (h : c.isDigit = true ∨ c = '-' ∨ c = ':') :
    pyIsSpace c = false := by
  rcases h with h | rfl | rfl
  · exact isDigit_not_space h
  · decide
  · decide

theorem seconds_to_time_chars (n : Int) :
    ∀ c ∈ seconds_to_time n, c.isDigit = true ∨ c = '-' ∨ c = ':' := by
  intro c hc
  unfold seconds_to_time at hc
  simp only [List.mem_append, List.mem_cons] at hc
  rcases hc with ((h | (rfl | h)) | (rfl | h)) <;>
    first
      | exact Or.inr (Or.inr rfl)
      | rcases pad2_chars _ c h with h | h
        · exact Or.inl h
        · exact Or.inr (Or.inl h)

theorem seconds_to_time_ne_nil (n : Int) : seconds_to_time n ≠ [] := by
  unfold seconds_to_time
  simp

theorem pySplitWs_three (t1 t2 t3 s1 s2 : PyStr)
    (h1 : ∀ c ∈ t1, pyIsSpace c = false) (h1n : t1 ≠ [])
    (h2 : ∀ c ∈ t2, pyIsSpace c = false) (h2n : t2 ≠ [])
    (h3 : ∀ c ∈ t3, pyIsSpace c = false) (h3n : t3 ≠ [])
    (hs1 : ∀ c ∈ s1, pyIsSpace c = true) (hs1n : s1 ≠ [])
    (hs2 : ∀ c ∈ s2, pyIsSpace c = true) (hs2n : s2 ≠ []) :
    pySplitWs (t1 ++ (s1 ++ (t2 ++ (s2 ++ t3)))) = [t1, t2, t3] := by
  obtain ⟨c1, s1', rfl⟩ := List.exists_cons_of_ne_nil hs1n
  obtain ⟨c2, s2', rfl⟩ := List.exists_cons_of_ne_nil hs2n
  rw [List.cons_append,
    pySplitWs_append (hs1 c1 (by simp)) t1,
    pySplitWs_spaces_append (a := s1') (fun d hd => hs1 d (by simp [hd])),
    List.cons_append,
    pySplitWs_append (hs2 c2 (by simp)) t2,
    pySplitWs_spaces_append (a := s2') (fun d hd => hs2 d (by simp [hd])),
    pySplitWs_token h1 h1n, pySplitWs_token h2 h2n, pySplitWs_token h3 h3n]
  rfl

theorem parseLine_saved (idx T D : PyStr) (sfx : Char) (s1 s2 : PyStr) (t : Int)
    (hidx : ∀ c ∈ idx, pyIsSpace c = false) (hidxn : idx ≠ [])
    (hT : ∀ c ∈ T, pyIsSpace c = false) (hTn : T ≠ [])
    (hTtime : time_to_seconds T = some t)
    (hD : ∀ c ∈ D, pyIsSpace c = false)
    (hsfx : pyIsSpace sfx = false)
    (hs1 : ∀ c ∈ s1, pyIsSpace c = true) (hs1n : s1 ≠ [])
    (hs2 : ∀ c ∈ s2, pyIsSpace c = true) (hs2n : s2 ≠ []) :
    parseLine (idx ++ (s1 ++ (T ++ (s2 ++ (D ++ [sfx]))))) = some ⟨t, D ++ [sfx]⟩ := by
  unfold parseLine
  rw [pySplitWs_pyStrip,
    pySplitWs_three idx T (D ++ [sfx]) s1 s2 hidx hidxn hT hTn
      (by
        intro c hc
        rcases List.mem_append.mp hc with h | h
        · exact hD c h
        · rw [List.mem_singleton.mp h]
          exact hsfx)
      (by simp) hs1 hs1n hs2 hs2n]
  show (match time_to_seconds T with
    | some u => some (Marker.mk u (D ++ [sfx]))
    | none => none) = some (Marker.mk t (D ++ [sfx]))
  rw [hTtime]

theorem append_no_nl {a b : PyStr} (ha : ∀ c ∈ a, decide (c = '\n') = false)
    (hb : ∀ c ∈ b, decide (c = '\n') = false) :
    ∀ c ∈ a ++ b, decide (c = '\n') = false := by
  intro c hc
  rcases List.mem_append.mp hc with h | h
  · exact ha c h
  · exact hb c h

theorem cons_no_nl {a : Char} {b : PyStr} (ha : decide (a = '\n') = false)
    (hb : ∀ c ∈ b, decide (c = '\n') = false) :
    ∀ c ∈ a :: b, decide (c = '\n') = false := by
  intro c hc
  rcases List.mem_cons.mp hc with rfl | h
  · exact ha
  · exact hb c h

theorem natDigits_no_nl (k : Nat) : ∀ c ∈ natDigits k, decide (c = '\n') = false :=
  fun c hc => not_space_ne_nl (isDigit_not_space (natDigits_all_digit k c hc))

theorem seconds_to_time_no_nl (n : Int) :
    ∀ c ∈ seconds_to_time n, decide (c = '\n') = false :=
  fun c hc => not_space_ne_nl (timeChar_not_space (seconds_to_time_chars n c hc))

theorem saveLinesFrom_no_newline : ∀ (k : Nat) (ivs : List Interval),
    (∀ v ∈ ivs, ∀ c ∈ v.description, pyIsSpace c = false) →
    ∀ l ∈ saveLinesFrom k ivs, ∀ c ∈ l, decide (c = '\n') = false
  | _, [], _ => by simp [saveLinesFrom]
  | k, v :: rest, h => by
    intro l hl
    have hd : ∀ c ∈ v.description, decide (c = '\n') = false :=
      fun c hc => not_space_ne_nl (h v (by simp) c hc)
    rcases List.mem_cons.mp hl with rfl | hl
    · exact append_no_nl
        (append_no_nl
          (append_no_nl (natDigits_no_nl k)
            (cons_no_nl (by decide) (cons_no_nl (by decide) (seconds_to_time_no_nl v.start))))
          (cons_no_nl (by decide) (cons_no_nl (by decide) hd)))
        (cons_no_nl (by decide) (by simp))
    · rcases List.mem_cons.mp hl with rfl | hl
      · exact append_no_nl
          (append_no_nl
            (append_no_nl (natDigits_no_nl k)
              (cons_no_nl (by decide) (cons_no_nl (by decide) (seconds_to_time_no_nl v.stop))))
            (cons_no_nl (by decide) (cons_no_nl (by decide) (cons_no_nl (by decide)
              (cons_no_nl (by decide) hd)))))
          (cons_no_nl (by decide) (by simp))
      · exact saveLinesFrom_no_newline (k + 1) rest (fun u hu => h u (by simp [hu])) l hl

theorem splitNL_flatten : ∀ lines : List PyStr,
    (∀ l ∈ lines, ∀ c ∈ l, decide (c = '\n') = false) →
    splitOnPred (fun c => c = '\n') ((lines.map (fun l => l ++ ['\n'])).flatten)
      = lines ++ [[]]
  | [], _ => rfl
  | l :: rest, h => by
    rw [List.map_cons, List.flatten_cons, List.append_assoc, List.cons_append,
      List.nil_append]
    rw [splitOnPred_append (d := '\n') (by decide) l,
      splitOnPred_sepfree (h l (by simp)),
      splitNL_flatten rest (fun u hu => h u (by simp [hu]))]
    rfl

theorem loadMarkers_saveLines : ∀ (k : Nat) (ivs : List Interval),
    (∀ v ∈ ivs, ∀ c ∈ v.description, pyIsSpace c = false) →
    loadMarkers (saveLinesFrom k ivs) = markersOf ivs
  | _, [], _ => rfl
  | k, v :: rest, h => by
    have hd : ∀ c ∈ v.description, pyIsSpace c = false := h v (by simp)
    have hidx : ∀ c ∈ natDigits k, pyIsSpace c = false :=
      fun c hc => isDigit_not_space (natDigits_all_digit k c hc)
    have hT1 : ∀ c ∈ seconds_to_time v.start, pyIsSpace c = false :=
      fun c hc => timeChar_not_space (seconds_to_time_chars v.start c hc)
    have hT2 : ∀ c ∈ seconds_to_time v.stop, pyIsSpace c = false :=
      fun c hc => timeChar_not_space (seconds_to_time_chars v.stop c hc)
    have hline1 : parseLine (natDigits k ++ ' ' :: ' ' :: seconds_to_time v.start
        ++ ' ' :: ' ' :: v.description ++ ['1'])
        = some ⟨v.start, v.description ++ ['1']⟩ := by
      rw [show natDigits k ++ ' ' :: ' ' :: seconds_to_time v.start
          ++ ' ' :: ' ' :: v.description ++ ['1']
          = natDigits k ++ ([' ', ' '] ++ (seconds_to_time v.start
            ++ ([' ', ' '] ++ (v.description ++ ['1'])))) by simp]
      exact parseLine_saved (natDigits k) (seconds_to_time v.start) v.description '1'
        [' ', ' '] [' ', ' '] v.start hidx (natDigits_ne_nil k) hT1
        (seconds_to_time_ne_nil _) (time_to_seconds_seconds_to_time v.start) hd
        (by decide) (by decide) (by decide) (by decide) (by decide)
    have hline2 : parseLine (natDigits k ++ ' ' :: ' ' :: seconds_to_time v.stop
        ++ ' ' :: ' ' :: ' ' :: ' ' :: v.description ++ ['2'])
        = some ⟨v.stop, v.description ++ ['2']⟩ := by
      rw [show natDigits k ++ ' ' :: ' ' :: seconds_to_time v.stop
          ++ ' ' :: ' ' :: ' ' :: ' ' :: v.description ++ ['2']
          = natDigits k ++ ([' ', ' '] ++ (seconds_to_time v.stop
            ++ ([' ', ' ', ' ', ' '] ++ (v.description ++ ['2'])))) by simp]
      exact parseLine_saved (natDigits k) (seconds_to_time v.stop) v.description '2'
        [' ', ' '] [' ', ' ', ' ', ' '] v.stop hidx (natDigits_ne_nil k) hT2
        (seconds_to_time_ne_nil _) (time_to_seconds_seconds_to_time v.stop) hd
        (by decide) (by decide) (by decide) (by decide) (by decide)
    rw [show saveLinesFrom k (v :: rest)
        = (natDigits k ++ ' ' :: ' ' :: seconds_to_time v.start
            ++ ' ' :: ' ' :: v.description ++ ['1'])
          :: (natDigits k ++ ' ' :: ' ' :: seconds_to_time v.stop
            ++ ' ' :: ' ' :: ' ' :: ' ' :: v.description ++ ['2'])
          :: saveLinesFrom (k + 1) rest from rfl]
    simp only [loadMarkers, List.filterMap_cons, hline1, hline2]
    rw [show List.filterMap parseLine (saveLinesFrom (k + 1) rest) = markersOf rest
      from loadMarkers_saveLines (k + 1) rest (fun u hu => h u (by simp [hu]))]
    rfl

theorem pairIntervals_markersOf : ∀ ivs : List Interval,
    pairIntervals (markersOf ivs) = ivs
  | [] => rfl
  | v :: rest => by
    obtain ⟨vs, ve, vd⟩ := v
    show pairIntervals (⟨vs, vd ++ ['1']⟩ :: ⟨ve, vd ++ ['2']⟩ :: markersOf rest)
      = ⟨vs, ve, vd⟩ :: rest
    unfold pairIntervals
    rw [if_pos]
    · rw [pairIntervals_markersOf rest]
      show Interval.mk vs ve ((vd ++ ['1']).dropLast) :: rest = _
      rw [List.dropLast_concat]
    · refine ⟨?_, ?_, ?_⟩
      · show (vd ++ ['1']).dropLast = (vd ++ ['2']).dropLast
        rw [List.dropLast_concat, List.dropLast_concat]
      · exact List.getLast?_concat vd
      · exact List.getLast?_concat vd

/-- C3 counterexample: an interval whose description contains a space is
written as lines of more than three whitespace-separated tokens; the loader
skips both lines and reproduces nothing, not the original list. -/
theorem c3_roundtrip_counterexample :
    loadIntervalsFromText (save_markup_txt [⟨5, 9, "a b".toList⟩] []) = []
    ∧ ([] : List Interval) ≠ [⟨5, 9, "a b".toList⟩] := by
  constructor
  · decide
  · decide

/-- C3 amended: saving and re-loading through the annotation line parser
and pairing reproduces the interval list verbatim, provided every
description is free of whitespace characters (a description containing
whitespace breaks the three-token line format, as the counterexample
shows).  Start and end times need no restriction. -/
theorem c3_roundtrip_amended (ex mk : List Interval)
    (h : ∀ v ∈ ex ++ mk, ∀ c ∈ v.description, pyIsSpace c = false) :
    loadIntervalsFromText (save_markup_txt mk ex) = ex ++ mk := by
  unfold loadIntervalsFromText save_markup_txt
  rw [splitNL_flatten _ (saveLinesFrom_no_newline 1 (ex ++ mk) h)]
  rw [show loadMarkers (saveLinesFrom 1 (ex ++ mk) ++ [[]])
      = loadMarkers (saveLinesFrom 1 (ex ++ mk)) by
    simp [loadMarkers, List.filterMap_append,
      show parseLine ([] : PyStr) = none from rfl]]
  rw [loadMarkers_saveLines 1 (ex ++ mk) h, pairIntervals_markersOf]

/-- Witness for the amended C3 at a concrete two-interval session. -/
theorem c3_roundtrip_amended_witness :
    loadIntervalsFromText (save_markup_txt [⟨70, 80, "is".toList⟩] [⟨5, 9, "swd".toList⟩])
      = [⟨5, 9, "swd".toList⟩] ++ [⟨70, 80, "is".toList⟩] :=
  c3_roundtrip_amended [⟨5, 9, "swd".toList⟩] [⟨70, 80, "is".toList⟩] (by decide)

end App
